import Mathlib

/-!
Shallow embedding of the tinyscript interpreter (src/tinyscript.ts): lexer,
parser, scope chain and evaluator, together with theorems settling the
frozen claims about the specification.

Modelling conventions, stated once:
* JS numbers are IEEE doubles.  Every claim only exercises integer
  arithmetic, which we model exactly with ℤ; a division whose JS result
  is not an integer (including division by zero, Infinity/NaN in JS) and
  implicit coercion of mixed-type operands are outside the modelled value
  domain and are marked with the dedicated error tag `Err.coerce` (no
  claim depends on those cases).
* JS exceptions become the error side of an explicit result type `Res`
  that always carries the current store, since mutations performed before
  a throw persist in JS.
* Unbounded loops and recursion (the `while` statement, function calls,
  and one genuine lexer divergence) are modelled with a fuel parameter;
  `Err.fuel` is a model artifact, not a JS behaviour.
* JS object lookup (`keywords[value]`, `scope.objects[name]`) also sees
  properties inherited from `Object.prototype` (names such as
  `constructor`).  We model plain finite maps; no claim exercises those
  names.
-/

set_option maxRecDepth 8000

namespace Tinyscript

/-- Token tags, mirroring `enum TokenType` in src/tinyscript.ts. -/
inductive TokenType where
  | Id
  | And | Or | Not
  | Def
  | Let
  | Print
  | If | Else
  | While
  | Fn | Return | Call
  | IntLiteral
  | LParen | RParen
  | LCurly | RCurly
  | Semi
  | RightArrow
  | Comma
  | Assign
  | EQ | NE | LT | GT | LE | GE
  | Plus | Minus | Mul | Div
  deriving DecidableEq, Repr

/-- A token: a tag plus an optional lexeme (`class Token`); the lexeme is
present only for identifiers and integer literals. -/
structure Token where
  type : TokenType
  value : Option String := none
  deriving DecidableEq, Repr

/-- `Token.intLiteral` of the source. -/
def Token.intLiteral (value : String) : Token := ⟨TokenType.IntLiteral, some value⟩

/-- `Token.id` of the source. -/
def Token.id (value : String) : Token := ⟨TokenType.Id, some value⟩

/-- `Token.symbol` of the source. -/
def Token.symbol (type : TokenType) : Token := ⟨type, none⟩

/-- The `keywords` table of the source, as a lookup function.  (The JS
object lookup would additionally surface `Object.prototype` members for
names such as `constructor`; no claim exercises those names.) -/
def keywords (value : String) : Option TokenType :=
  if value = "and" then some .And
  else if value = "or" then some .Or
  else if value = "not" then some .Not
  else if value = "def" then some .Def
  else if value = "let" then some .Let
  else if value = "print" then some .Print
  else if value = "if" then some .If
  else if value = "else" then some .Else
  else if value = "while" then some .While
  else if value = "fn" then some .Fn
  else if value = "return" then some .Return
  else if value = "call" then some .Call
  else none

/-- AST nodes: one inductive covering every `NodeKind` variant of the
source (`Program`, the statements, the expressions and the literals).
`IfStatement.elseBody` may be `null` in the source, hence `Option`.
Integer literal values are modelled as ℤ (see the header note). -/
inductive Node where
  | program (body : List Node)
  | defStmt (id : String) (value : Node)
  | letStmt (id : String) (value : Node)
  | printStmt (value : Node)
  | blockStmt (body : List Node)
  | ifStmt (condition : Node) (body : Node) (elseBody : Option Node)
  | whileStmt (condition : Node) (body : Node)
  | callStmt (expr : Node)
  | returnStmt (expr : Node)
  | binaryExpr (left : Node) (operator : String) (right : Node)
  | funcCallExpr (func : Node) (args : List Node)
  | nameExpr (name : String)
  | intLiteral (value : ℤ)
  | fnLiteral (args : List String) (body : Node)
  deriving Repr

/-- Runtime values flowing through the evaluator: JS numbers (modelled by
ℤ), booleans, function values (an `FnLiteral` node: its parameter list and
body), and `noValue` for the JS `undefined` that statements and
non-returning calls produce. -/
inductive Value where
  | num (q : ℤ)
  | bool (b : Bool)
  | fn (params : List String) (body : Node)
  | noValue
  deriving Repr

/-- Structured contents of the `TSError` messages thrown by the source. -/
inductive TsMsg where
  | unknownChar (c : Char)
  | expectedToken (expected actual : TokenType)
  | unknownStatement (t : TokenType)
  | unknownToken (t : TokenType)
  | alreadyDefined (name : String)
  | undefinedName (name : String)
  deriving Repr

/-- Everything that can abort a run: a `TSError`, the `TSFuncRetError`
control-transfer signal carrying a value, a host-level error (a JS
`TypeError` from reading a property of `undefined`, or the bare
`new Error()` of `executeBinaryExpression`), a coercion case outside the
modelled value domain (see the header note), and fuel exhaustion (model
artifact standing for divergence). -/
inductive Err where
  | ts (m : TsMsg)
  | funcRet (v : Value)
  | host
  | coerce
  | fuel
  deriving Repr

/-! ## Lexer

`tokenize` of the source scans the input left to right by index.  Reading
`input[index]` past the end yields `undefined` in JS, modelled by
`Option Char`.  The character class predicates coerce their argument to a
string, so on `undefined` they test the string `"undefined"`:
`/\s/` and `/[0-9]/` reject it, but `/[a-z]/i` ACCEPTS it, which makes the
identifier loop diverge when the input ends in a letter. -/

/-- `isWhitespace` applied to `input[index]` (false past the end). -/
def isWhitespaceAt (c : Option Char) : Bool :=
  match c with
  | some c => c.isWhitespace
  | none => false

/-- `isNumber` applied to `input[index]` (false past the end). -/
def isNumberAt (c : Option Char) : Bool :=
  match c with
  | some c => c.isDigit
  | none => false

/-- `isLetter` applied to `input[index]`.  Past the end the JS regex tests
the coerced string `"undefined"`, which does contain letters, so the
result is `true`. -/
def isLetterAt (c : Option Char) : Bool :=
  match c with
  | some c => c.isAlpha
  | none => true

/-- The digit-run loop of `tokenize`: accumulate while `isNumber`. -/
def lexDigits (input : List Char) : Nat → Nat → String → Except Err (String × Nat)
  | 0, _, _ => .error .fuel
  | fuel + 1, i, acc =>
    if isNumberAt input[i]? then
      lexDigits input fuel (i + 1) (acc.push (input[i]?.getD ' '))
    else
      .ok (acc, i)

/-- The letter-run loop of `tokenize`: accumulate while `isLetter`.  Past
the end of the input `isLetter` stays true and JS appends the string
`"undefined"` each iteration, so the loop never terminates: the model
burns fuel forever. -/
def lexLetters (input : List Char) : Nat → Nat → String → Except Err (String × Nat)
  | 0, _, _ => .error .fuel
  | fuel + 1, i, acc =>
    match input[i]? with
    | some c =>
      if c.isAlpha then lexLetters input fuel (i + 1) (acc.push c)
      else .ok (acc, i)
    | none => lexLetters input fuel (i + 1) (acc ++ "undefined")

/-- The main scanning loop of `tokenize`: one token (or whitespace skip)
per iteration, mirroring the switch over the current character. -/
def tokenizeLoop (input : List Char) : Nat → Nat → Except Err (List Token)
  | 0, _ => .error .fuel
  | fuel + 1, i =>
    match input[i]? with
    | none => .ok []
    | some c =>
      if c.isWhitespace then tokenizeLoop input fuel (i + 1)
      else if c.isDigit then
        match lexDigits input (fuel + 1) i "" with
        | .error e => .error e
        | .ok (value, i') =>
          (tokenizeLoop input fuel i').map (fun rest => Token.intLiteral value :: rest)
      else if c.isAlpha then
        match lexLetters input (fuel + 1) i "" with
        | .error e => .error e
        | .ok (value, i') =>
          let tok := match keywords value with
            | some kwType => Token.symbol kwType
            | none => Token.id value
          (tokenizeLoop input fuel i').map (fun rest => tok :: rest)
      else if c = '(' then
        (tokenizeLoop input fuel (i + 1)).map (Token.symbol .LParen :: ·)
      else if c = ')' then
        (tokenizeLoop input fuel (i + 1)).map (Token.symbol .RParen :: ·)
      else if c = '{' then
        (tokenizeLoop input fuel (i + 1)).map (Token.symbol .LCurly :: ·)
      else if c = '}' then
        (tokenizeLoop input fuel (i + 1)).map (Token.symbol .RCurly :: ·)
      else if c = '+' then
        (tokenizeLoop input fuel (i + 1)).map (Token.symbol .Plus :: ·)
      else if c = '-' then
        (tokenizeLoop input fuel (i + 1)).map (Token.symbol .Minus :: ·)
      else if c = '*' then
        (tokenizeLoop input fuel (i + 1)).map (Token.symbol .Mul :: ·)
      else if c = '/' then
        (tokenizeLoop input fuel (i + 1)).map (Token.symbol .Div :: ·)
      else if c = ';' then
        (tokenizeLoop input fuel (i + 1)).map (Token.symbol .Semi :: ·)
      else if c = ',' then
        (tokenizeLoop input fuel (i + 1)).map (Token.symbol .Comma :: ·)
      else if c = '>' then
        if input[i + 1]? = some '=' then
          (tokenizeLoop input fuel (i + 2)).map (Token.symbol .GE :: ·)
        else
          (tokenizeLoop input fuel (i + 1)).map (Token.symbol .GT :: ·)
      else if c = '<' then
        if input[i + 1]? = some '>' then
          (tokenizeLoop input fuel (i + 2)).map (Token.symbol .NE :: ·)
        else if input[i + 1]? = some '=' then
          (tokenizeLoop input fuel (i + 2)).map (Token.symbol .LE :: ·)
        else
          (tokenizeLoop input fuel (i + 1)).map (Token.symbol .LT :: ·)
      else if c = '=' then
        if input[i + 1]? = some '=' then
          (tokenizeLoop input fuel (i + 2)).map (Token.symbol .EQ :: ·)
        else if input[i + 1]? = some '>' then
          (tokenizeLoop input fuel (i + 2)).map (Token.symbol .RightArrow :: ·)
        else
          (tokenizeLoop input fuel (i + 1)).map (Token.symbol .Assign :: ·)
      else
        .error (.ts (.unknownChar c))

/-- `tokenize` of the source, on the character list of the input. -/
def tokenize (fuel : Nat) (input : String) : Except Err (List Token) :=
  tokenizeLoop input.toList fuel 0

/-! ## Parser

Recursive descent over the token list, one Lean function per parse
function of the source (the `while (true)` loops inside parse functions
become the `...Loop` helpers).  `peek()` reads `tokens[index]`, which is
`undefined` past the end of the sequence; the source then reads
`token.type` from it, which throws a host-level `TypeError` — modelled by
`Err.host`.  Each function consumes one unit of fuel on entry; every
run of the source parser makes finitely many calls, so any sufficiently
large fuel reproduces it exactly. -/

/-- JS string coercion of a possibly-missing token lexeme: `undefined`
interpolated or used as an object key becomes the string `"undefined"`.
Lexer-produced `Id` and `IntLiteral` tokens always carry a lexeme. -/
def jsStr (value : Option String) : String := value.getD "undefined"

/-- `parseInt(token.value)`: parse the leading digit run.  On a lexeme
with no leading digits JS yields `NaN`, which is outside our numeric
domain; we return 0 there (unexercised by the claims — lexer-produced
integer literals are nonempty digit strings). -/
def parseIntJS (value : Option String) : ℤ :=
  let s := (jsStr value).toList.takeWhile Char.isDigit
  match s with
  | [] => 0
  | _ => ((s.foldl (fun n c => n * 10 + (c.toNat - 48)) 0 : ℕ) : ℤ)

/-- The `operators` table mapping operator token tags to operator symbol
strings.  A JS lookup of an unmapped tag yields `undefined`; the parser
only consults the table at operator tags, so the default is unreachable
from parsing. -/
def operators (t : TokenType) : String :=
  match t with
  | .Plus => "+"
  | .Minus => "-"
  | .Mul => "*"
  | .Div => "/"
  | .EQ => "=="
  | .NE => "<>"
  | .GE => ">="
  | .LE => "<="
  | .GT => ">"
  | .LT => "<"
  | _ => "undefined"

/-- `match(type)` of the source: reads the current token (host error past
the end), consumes it when the tag agrees, otherwise throws the
expected-versus-actual `TSError`. -/
def pMatch (ts : List Token) (i : Nat) (ty : TokenType) : Except Err (Token × Nat) :=
  match ts[i]? with
  | none => .error .host
  | some token =>
    if token.type = ty then .ok (token, i + 1)
    else .error (.ts (.expectedToken ty token.type))

mutual

/-- `parseProgram`: statements until the tokens are exhausted. -/
def pProgram (ts : List Token) : Nat → Nat → Except Err (List Node × Nat)
  | 0, _ => .error .fuel
  | fuel + 1, i =>
    if i < ts.length then do
      let (stmt, i) ← pStatement ts fuel i
      let (rest, i) ← pProgram ts fuel i
      pure (stmt :: rest, i)
    else pure ([], i)
  termination_by structural fuel _ => fuel

/-- `parseStatement`: dispatch on the current token tag. -/
def pStatement (ts : List Token) : Nat → Nat → Except Err (Node × Nat)
  | 0, _ => .error .fuel
  | fuel + 1, i =>
    match ts[i]? with
    | none => .error .host
    | some token =>
      match token.type with
      | .Def => pDefStatement ts fuel i
      | .Let => pLetStatement ts fuel i
      | .Print => pPrintStatement ts fuel i
      | .LCurly => pBlockStatement ts fuel i
      | .If => pIfStatement ts fuel i
      | .While => pWhileStatement ts fuel i
      | .Call => pCallStatement ts fuel i
      | .Return => pReturnStatement ts fuel i
      | t => .error (.ts (.unknownStatement t))
  termination_by structural fuel _ => fuel

/-- `parseDefStatement`. -/
def pDefStatement (ts : List Token) : Nat → Nat → Except Err (Node × Nat)
  | 0, _ => .error .fuel
  | fuel + 1, i => do
    let (_, i) ← pMatch ts i .Def
    let (idTok, i) ← pMatch ts i .Id
    let (_, i) ← pMatch ts i .Assign
    let (expr, i) ← pExpression ts fuel i
    let (_, i) ← pMatch ts i .Semi
    pure (Node.defStmt (jsStr idTok.value) expr, i)
  termination_by structural fuel _ => fuel

/-- `parseLetStatement`. -/
def pLetStatement (ts : List Token) : Nat → Nat → Except Err (Node × Nat)
  | 0, _ => .error .fuel
  | fuel + 1, i => do
    let (_, i) ← pMatch ts i .Let
    let (idTok, i) ← pMatch ts i .Id
    let (_, i) ← pMatch ts i .Assign
    let (expr, i) ← pExpression ts fuel i
    let (_, i) ← pMatch ts i .Semi
    pure (Node.letStmt (jsStr idTok.value) expr, i)
  termination_by structural fuel _ => fuel

/-- `parsePrintStatement`. -/
def pPrintStatement (ts : List Token) : Nat → Nat → Except Err (Node × Nat)
  | 0, _ => .error .fuel
  | fuel + 1, i => do
    let (_, i) ← pMatch ts i .Print
    let (expr, i) ← pExpression ts fuel i
    let (_, i) ← pMatch ts i .Semi
    pure (Node.printStmt expr, i)
  termination_by structural fuel _ => fuel

/-- `parseBlockStatement`: consume the opening brace, then the loop. -/
def pBlockStatement (ts : List Token) : Nat → Nat → Except Err (Node × Nat)
  | 0, _ => .error .fuel
  | fuel + 1, i => do
    let (_, i) ← pMatch ts i .LCurly
    let (stmts, i) ← pBlockLoop ts fuel i
    pure (Node.blockStmt stmts, i)
  termination_by structural fuel _ => fuel

/-- The statement loop inside `parseBlockStatement`: until the closing
brace (reading the current token tag each iteration — host error past the
end of the tokens). -/
def pBlockLoop (ts : List Token) : Nat → Nat → Except Err (List Node × Nat)
  | 0, _ => .error .fuel
  | fuel + 1, i =>
    match ts[i]? with
    | none => .error .host
    | some token =>
      if token.type = .RCurly then pure ([], i + 1)
      else do
        let (stmt, i) ← pStatement ts fuel i
        let (rest, i) ← pBlockLoop ts fuel i
        pure (stmt :: rest, i)
  termination_by structural fuel _ => fuel

/-- `parseIfStatement`.  Note that after the body it unconditionally
reads `peek().type` to look for `else`, a host error when the tokens are
exhausted. -/
def pIfStatement (ts : List Token) : Nat → Nat → Except Err (Node × Nat)
  | 0, _ => .error .fuel
  | fuel + 1, i => do
    let (_, i) ← pMatch ts i .If
    let (_, i) ← pMatch ts i .LParen
    let (condition, i) ← pExpression ts fuel i
    let (_, i) ← pMatch ts i .RParen
    let (body, i) ← pStatement ts fuel i
    match ts[i]? with
    | none => .error .host
    | some token =>
      if token.type = .Else then do
        let (elseBody, i) ← pStatement ts fuel (i + 1)
        pure (Node.ifStmt condition body (some elseBody), i)
      else pure (Node.ifStmt condition body none, i)
  termination_by structural fuel _ => fuel

/-- `parseWhileStatement`. -/
def pWhileStatement (ts : List Token) : Nat → Nat → Except Err (Node × Nat)
  | 0, _ => .error .fuel
  | fuel + 1, i => do
    let (_, i) ← pMatch ts i .While
    let (_, i) ← pMatch ts i .LParen
    let (condition, i) ← pExpression ts fuel i
    let (_, i) ← pMatch ts i .RParen
    let (body, i) ← pStatement ts fuel i
    pure (Node.whileStmt condition body, i)
  termination_by structural fuel _ => fuel

/-- `parseCallStatement`. -/
def pCallStatement (ts : List Token) : Nat → Nat → Except Err (Node × Nat)
  | 0, _ => .error .fuel
  | fuel + 1, i => do
    let (_, i) ← pMatch ts i .Call
    let (expr, i) ← pExpression ts fuel i
    let (_, i) ← pMatch ts i .Semi
    pure (Node.callStmt expr, i)
  termination_by structural fuel _ => fuel

/-- `parseReturnStatement`. -/
def pReturnStatement (ts : List Token) : Nat → Nat → Except Err (Node × Nat)
  | 0, _ => .error .fuel
  | fuel + 1, i => do
    let (_, i) ← pMatch ts i .Return
    let (expr, i) ← pExpression ts fuel i
    let (_, i) ← pMatch ts i .Semi
    pure (Node.returnStmt expr, i)
  termination_by structural fuel _ => fuel

/-- `parseExpression` = `parseRelationalExpression`. -/
def pExpression (ts : List Token) : Nat → Nat → Except Err (Node × Nat)
  | 0, _ => .error .fuel
  | fuel + 1, i => pRelational ts fuel i
  termination_by structural fuel _ => fuel

/-- `parseRelationalExpression`: an additive expression, then the
left-associative relational-operator loop. -/
def pRelational (ts : List Token) : Nat → Nat → Except Err (Node × Nat)
  | 0, _ => .error .fuel
  | fuel + 1, i => do
    let (expr, i) ← pAdditive ts fuel i
    pRelLoop ts fuel expr i
  termination_by structural fuel _ => fuel

/-- The operator loop of `parseRelationalExpression`. -/
def pRelLoop (ts : List Token) : Nat → Node → Nat → Except Err (Node × Nat)
  | 0, _, _ => .error .fuel
  | fuel + 1, expr, i =>
    match ts[i]? with
    | none => .error .host
    | some token =>
      if token.type = .EQ ∨ token.type = .NE ∨ token.type = .GE ∨
          token.type = .LE ∨ token.type = .GT ∨ token.type = .LT then do
        let (right, i) ← pAdditive ts fuel (i + 1)
        pRelLoop ts fuel (Node.binaryExpr expr (operators token.type) right) i
      else pure (expr, i)
  termination_by structural fuel _ _ => fuel

/-- `parseAdditiveExpression`. -/
def pAdditive (ts : List Token) : Nat → Nat → Except Err (Node × Nat)
  | 0, _ => .error .fuel
  | fuel + 1, i => do
    let (expr, i) ← pMultiplicative ts fuel i
    pAddLoop ts fuel expr i
  termination_by structural fuel _ => fuel

/-- The operator loop of `parseAdditiveExpression`. -/
def pAddLoop (ts : List Token) : Nat → Node → Nat → Except Err (Node × Nat)
  | 0, _, _ => .error .fuel
  | fuel + 1, expr, i =>
    match ts[i]? with
    | none => .error .host
    | some token =>
      if token.type = .Plus ∨ token.type = .Minus then do
        let (right, i) ← pMultiplicative ts fuel (i + 1)
        pAddLoop ts fuel (Node.binaryExpr expr (operators token.type) right) i
      else pure (expr, i)
  termination_by structural fuel _ _ => fuel

/-- `parseMultiplicativeExpression`. -/
def pMultiplicative (ts : List Token) : Nat → Nat → Except Err (Node × Nat)
  | 0, _ => .error .fuel
  | fuel + 1, i => do
    let (expr, i) ← pPostfix ts fuel i
    pMultLoop ts fuel expr i
  termination_by structural fuel _ => fuel

/-- The operator loop of `parseMultiplicativeExpression`. -/
def pMultLoop (ts : List Token) : Nat → Node → Nat → Except Err (Node × Nat)
  | 0, _, _ => .error .fuel
  | fuel + 1, expr, i =>
    match ts[i]? with
    | none => .error .host
    | some token =>
      if token.type = .Mul ∨ token.type = .Div then do
        let (right, i) ← pPostfix ts fuel (i + 1)
        pMultLoop ts fuel (Node.binaryExpr expr (operators token.type) right) i
      else pure (expr, i)
  termination_by structural fuel _ _ => fuel

/-- `parsePostfixExpression`: a primary expression and at most one call
suffix (the current token tag is read unconditionally — host error when
the tokens are exhausted). -/
def pPostfix (ts : List Token) : Nat → Nat → Except Err (Node × Nat)
  | 0, _ => .error .fuel
  | fuel + 1, i => do
    let (expr, i) ← pPrimary ts fuel i
    match ts[i]? with
    | none => .error .host
    | some token =>
      if token.type = .LParen then do
        let (args, i) ← pArgList ts fuel (i + 1)
        let (_, i) ← pMatch ts i .RParen
        pure (Node.funcCallExpr expr args, i)
      else pure (expr, i)
  termination_by structural fuel _ => fuel

/-- `parseArgumentList`. -/
def pArgList (ts : List Token) : Nat → Nat → Except Err (List Node × Nat)
  | 0, _ => .error .fuel
  | fuel + 1, i =>
    match ts[i]? with
    | none => .error .host
    | some token =>
      if token.type = .RParen then pure ([], i)
      else do
        let (arg, i) ← pExpression ts fuel i
        let (rest, i) ← pArgLoop ts fuel i
        pure (arg :: rest, i)
  termination_by structural fuel _ => fuel

/-- The comma loop of `parseArgumentList`. -/
def pArgLoop (ts : List Token) : Nat → Nat → Except Err (List Node × Nat)
  | 0, _ => .error .fuel
  | fuel + 1, i =>
    match ts[i]? with
    | none => .error .host
    | some token =>
      if token.type = .Comma then do
        let (arg, i) ← pExpression ts fuel (i + 1)
        let (rest, i) ← pArgLoop ts fuel i
        pure (arg :: rest, i)
      else pure ([], i)
  termination_by structural fuel _ => fuel

/-- `parsePrimaryExpression`. -/
def pPrimary (ts : List Token) : Nat → Nat → Except Err (Node × Nat)
  | 0, _ => .error .fuel
  | fuel + 1, i =>
    match ts[i]? with
    | none => .error .host
    | some token =>
      match token.type with
      | .IntLiteral => pure (Node.intLiteral (parseIntJS token.value), i + 1)
      | .Fn => pFnLiteral ts fuel i
      | .Id => pure (Node.nameExpr (jsStr token.value), i + 1)
      | .LParen => do
        let (expr, i) ← pExpression ts fuel (i + 1)
        let (_, i) ← pMatch ts i .RParen
        pure (expr, i)
      | t => .error (.ts (.unknownToken t))
  termination_by structural fuel _ => fuel

/-- `parseFnLiteral`. -/
def pFnLiteral (ts : List Token) : Nat → Nat → Except Err (Node × Nat)
  | 0, _ => .error .fuel
  | fuel + 1, i => do
    let (_, i) ← pMatch ts i .Fn
    let (_, i) ← pMatch ts i .LParen
    match ts[i]? with
    | none => .error .host
    | some token =>
      if token.type ≠ .RParen then do
        let (idTok, i) ← pMatch ts i .Id
        let (rest, i) ← pFnParams ts fuel i
        let (_, i) ← pMatch ts i .RParen
        let (_, i) ← pMatch ts i .RightArrow
        let (body, i) ← pBlockStatement ts fuel i
        pure (Node.fnLiteral (jsStr idTok.value :: rest) body, i)
      else do
        let (_, i) ← pMatch ts i .RParen
        let (_, i) ← pMatch ts i .RightArrow
        let (body, i) ← pBlockStatement ts fuel i
        pure (Node.fnLiteral [] body, i)
  termination_by structural fuel _ => fuel

/-- The comma loop of the parameter list inside `parseFnLiteral`. -/
def pFnParams (ts : List Token) : Nat → Nat → Except Err (List String × Nat)
  | 0, _ => .error .fuel
  | fuel + 1, i =>
    match ts[i]? with
    | none => .error .host
    | some token =>
      if token.type = .Comma then do
        let (idTok, i) ← pMatch ts (i + 1) .Id
        let (rest, i) ← pFnParams ts fuel i
        pure (jsStr idTok.value :: rest, i)
      else pure ([], i)
  termination_by structural fuel _ => fuel

end

/-- `parse` of the source: run `parseProgram` from index 0 and wrap the
statements in a `Program` node. -/
def parse (fuel : Nat) (ts : List Token) : Except Err Node :=
  (pProgram ts fuel 0).map (fun p => Node.program p.1)

/-! ## Scope

`class Scope` of the source: a chained mapping structure.  Because `set`
mutates a frame found anywhere up the parent chain, the scope tree is
mutable shared state; we model it as a store of frames indexed by
creation order (`Scope.create` appends a frame whose parent is the
creating scope).  A plain JS object models as an association list with at
most one entry per key; reading an absent key yields `undefined`
(`Value.noValue` here). -/

/-- One scope object: its parent reference and its own `objects` map. -/
structure Frame where
  parent : Option Nat
  objects : List (String × Value)

/-- The whole mutable world of a run: every scope frame created so far
(index = identity) plus the `console.log` output trace. -/
structure Store where
  frames : List Frame
  out : List Value

/-- `scope.create()`: a new frame whose parent is the receiver. -/
def Store.createFrame (st : Store) (parent : Nat) : Store :=
  { st with frames := st.frames ++ [⟨some parent, []⟩] }

/-- `Scope.global()`: the root frame with no parent, empty output. -/
def initStore : Store := ⟨[⟨none, []⟩], []⟩

/-- Read a key of a JS object map (first matching entry). -/
def objGet : List (String × Value) → String → Option Value
  | [], _ => none
  | (k, v) :: rest, name => if k = name then some v else objGet rest name

/-- `this.objects[name]`: an absent key reads as `undefined`. -/
def objGetD (objects : List (String × Value)) (name : String) : Value :=
  (objGet objects name).getD .noValue

/-- `this.objects[name] = value`: overwrite the existing entry for the
key, or add one. -/
def objSet : List (String × Value) → String → Value → List (String × Value)
  | [], name, v => [(name, v)]
  | (k, w) :: rest, name, v =>
    if k = name then (k, v) :: rest else (k, w) :: objSet rest name v

/-- The JS test `x != undefined` on a runtime value (the value domain has
no `null`, the only other loosely-undefined-equal value). -/
def isDefined : Value → Bool
  | .noValue => false
  | _ => true

/-- The result of one evaluation step: a value or an abort, in either
case together with the store, because JS mutations performed before a
throw persist. -/
inductive Res (α : Type) where
  | ok (a : α) (st : Store)
  | err (e : Err) (st : Store)

/-- `lookupScope(name)` of the source: walk from the receiver up the
parent chain to the first scope whose `objects[name] != undefined`.  Note
that this makes a binding whose value is `undefined` (`noValue`)
invisible: the walk skips it exactly like an absent key.  The fuel bounds
the walk (any fuel larger than the chain length is exact; parent indices
of reachable stores strictly decrease, so `frames.length` suffices). -/
def lookupScope (st : Store) : Nat → Nat → String → Option Nat
  | 0, _, _ => none
  | fuel + 1, sid, name =>
    match st.frames[sid]? with
    | none => none
    | some f =>
      if isDefined (objGetD f.objects name) then some sid
      else
        match f.parent with
        | none => none
        | some p => lookupScope st fuel p name

/-- `Scope.define`: throws the already-defined `TSError` when
`this.objects[name] != undefined`, otherwise writes the binding into the
receiver frame.  (An out-of-range frame index cannot arise from
evaluation; it is mapped to a host error.) -/
def Scope.define (st : Store) (sid : Nat) (name : String) (v : Value) : Res Unit :=
  match st.frames[sid]? with
  | none => .err .host st
  | some f =>
    if isDefined (objGetD f.objects name) then .err (.ts (.alreadyDefined name)) st
    else .ok () { st with frames := st.frames.set sid { f with objects := objSet f.objects name v } }

/-- `Scope.set`: find the owning scope via `lookupScope`, throw the
undefined-name `TSError` when there is none, otherwise mutate the binding
in place in the found frame. -/
def Scope.set (st : Store) (sid : Nat) (name : String) (v : Value) : Res Unit :=
  match lookupScope st st.frames.length sid name with
  | none => .err (.ts (.undefinedName name)) st
  | some fid =>
    match st.frames[fid]? with
    | none => .err .host st
    | some f =>
      .ok () { st with frames := st.frames.set fid { f with objects := objSet f.objects name v } }

/-- `Scope.get`: same lookup as `set`; return the bound value. -/
def Scope.get (st : Store) (sid : Nat) (name : String) : Res Value :=
  match lookupScope st st.frames.length sid name with
  | none => .err (.ts (.undefinedName name)) st
  | some fid =>
    match st.frames[fid]? with
    | none => .err .host st
    | some f => .ok (objGetD f.objects name) st

/-! ## Evaluator -/

/-- JS truthiness of a runtime value, as used by `if` and `while`
(`0` and `undefined` are falsy, objects are truthy; NaN, also falsy, is
outside the modelled numeric domain). -/
def truthy : Value → Bool
  | .num q => decide (q ≠ 0)
  | .bool b => b
  | .fn _ _ => true
  | .noValue => false

/-- The operator switch of `executeBinaryExpression`, on two evaluated
operands.  JS division is real-valued and never throws; a quotient
outside the modelled integer domain (including division by zero,
Infinity/NaN in JS) is marked `Err.coerce`, as are mixed-type operands
(implicit JS coercion); see the header note — no claim exercises either.
The default case of the source throws a bare `new Error()`, a host-level
error. -/
def applyBinOp (st : Store) (operator : String) (l r : Value) : Res Value :=
  match l, r with
  | .num a, .num b =>
    if operator = "+" then .ok (.num (a + b)) st
    else if operator = "-" then .ok (.num (a - b)) st
    else if operator = "*" then .ok (.num (a * b)) st
    else if operator = "/" then
      if b ≠ 0 ∧ b ∣ a then .ok (.num (a / b)) st
      else .err .coerce st
    else if operator = "==" then .ok (.bool (decide (a = b))) st
    else if operator = "<>" then .ok (.bool (decide (a ≠ b))) st
    else if operator = ">=" then .ok (.bool (decide (b ≤ a))) st
    else if operator = "<=" then .ok (.bool (decide (a ≤ b))) st
    else if operator = ">" then .ok (.bool (decide (b < a))) st
    else if operator = "<" then .ok (.bool (decide (a < b))) st
    else .err .host st
  | _, _ => .err .coerce st

/-- The parameter-binding loop of `executeFuncCallExpression`:
`funcScope.define(args[i], argVals[i])` for each formal parameter;
reading `argVals[i]` past the end of the evaluated arguments yields
`undefined` (`noValue`).  Extra argument values beyond the formals are
never read.  `define` can throw (duplicate formal names). -/
def bindParams (fid : Nat) : List String → List Value → Store → Res Unit
  | [], _, st => .ok () st
  | p :: ps, vs, st =>
    match Scope.define st fid p (vs.headD .noValue) with
    | .err e st' => .err e st'
    | .ok _ st' => bindParams fid ps vs.tail st'

mutual

/-- `exec` of the source: the single recursive dispatch on the node kind,
with each case transcribing the corresponding `executeXxx` function.
Points of note, all from the source:
* `executeBlockStatement` runs the body in a fresh child of the current
  scope (`scope.create()`).
* `executeReturnStatement` throws the `TSFuncRetError` signal
  (`Err.funcRet`).
* `executeFuncCallExpression` performs NO callable check: `as FnLiteral`
  is a compile-time cast.  `func.args` on a number or boolean reads
  `undefined` (so the host error surfaces only later at `args.length`,
  after the arguments are evaluated and the call scope is created), and
  on `undefined` itself the property read throws at once.  The catch
  around the body tests `err.value != undefined`, so a return signal
  carrying `undefined` is rethrown instead of being absorbed.
* One unit of fuel is consumed per dispatch and per `while` iteration;
  any sufficiently large fuel reproduces a terminating JS run exactly. -/
def exec : Nat → Node → Nat → Store → Res Value
  | 0, _, _, st => .err .fuel st
  | fuel + 1, node, scope, st =>
    match node with
    | .program body => execSeq fuel body scope st
    | .blockStmt body =>
      execSeq fuel body st.frames.length (st.createFrame scope)
    | .printStmt value =>
      match exec fuel value scope st with
      | .err e st1 => .err e st1
      | .ok v st1 => .ok .noValue { st1 with out := st1.out ++ [v] }
    | .defStmt id value =>
      match exec fuel value scope st with
      | .err e st1 => .err e st1
      | .ok v st1 =>
        match Scope.define st1 scope id v with
        | .err e st2 => .err e st2
        | .ok _ st2 => .ok .noValue st2
    | .letStmt id value =>
      match exec fuel value scope st with
      | .err e st1 => .err e st1
      | .ok v st1 =>
        match Scope.set st1 scope id v with
        | .err e st2 => .err e st2
        | .ok _ st2 => .ok .noValue st2
    | .ifStmt condition body elseBody =>
      match exec fuel condition scope st with
      | .err e st1 => .err e st1
      | .ok v st1 =>
        if truthy v then
          match exec fuel body scope st1 with
          | .err e st2 => .err e st2
          | .ok _ st2 => .ok .noValue st2
        else
          match elseBody with
          | some eb =>
            match exec fuel eb scope st1 with
            | .err e st2 => .err e st2
            | .ok _ st2 => .ok .noValue st2
          | none => .ok .noValue st1
    | .whileStmt condition body =>
      match exec fuel condition scope st with
      | .err e st1 => .err e st1
      | .ok v st1 =>
        if truthy v then
          match exec fuel body scope st1 with
          | .err e st2 => .err e st2
          | .ok _ st2 => exec fuel (.whileStmt condition body) scope st2
        else .ok .noValue st1
    | .callStmt expr =>
      match exec fuel expr scope st with
      | .err e st1 => .err e st1
      | .ok _ st1 => .ok .noValue st1
    | .returnStmt expr =>
      match exec fuel expr scope st with
      | .err e st1 => .err e st1
      | .ok v st1 => .err (.funcRet v) st1
    | .binaryExpr left operator right =>
      match exec fuel left scope st with
      | .err e st1 => .err e st1
      | .ok l st1 =>
        match exec fuel right scope st1 with
        | .err e st2 => .err e st2
        | .ok r st2 => applyBinOp st2 operator l r
    | .funcCallExpr funcE argEs =>
      match exec fuel funcE scope st with
      | .err e st1 => .err e st1
      | .ok funcV st1 =>
        match funcV with
        | .noValue => .err .host st1
        | .fn params body =>
          match execList fuel argEs scope st1 with
          | .err e st2 => .err e st2
          | .ok argVals st2 =>
            let fid := st2.frames.length
            match bindParams fid params argVals (st2.createFrame scope) with
            | .err e st3 => .err e st3
            | .ok _ st3 =>
              match exec fuel body fid st3 with
              | .ok _ st4 => .ok .noValue st4
              | .err (.funcRet v) st4 =>
                if isDefined v then .ok v st4 else .err (.funcRet v) st4
              | .err e st4 => .err e st4
        | _ =>
          match execList fuel argEs scope st1 with
          | .err e st2 => .err e st2
          | .ok _ st2 => .err .host (st2.createFrame scope)
    | .nameExpr name => Scope.get st scope name
    | .intLiteral value => .ok (.num value) st
    | .fnLiteral args body => .ok (.fn args body) st
  termination_by structural fuel _ _ _ => fuel

/-- The `forEach` over statements of `executeProgram` and
`executeBlockStatement` (these return `undefined`). -/
def execSeq : Nat → List Node → Nat → Store → Res Value
  | 0, _, _, st => .err .fuel st
  | _ + 1, [], _, st => .ok .noValue st
  | fuel + 1, stmt :: rest, scope, st =>
    match exec fuel stmt scope st with
    | .err e st1 => .err e st1
    | .ok _ st1 => execSeq fuel rest scope st1
  termination_by structural fuel _ _ _ => fuel

/-- `node.args.map(arg => exec(arg, scope))` of
`executeFuncCallExpression`: left to right, in the given scope. -/
def execList : Nat → List Node → Nat → Store → Res (List Value)
  | 0, _, _, st => .err .fuel st
  | _ + 1, [], _, st => .ok [] st
  | fuel + 1, e :: rest, scope, st =>
    match exec fuel e scope st with
    | .err e1 st1 => .err e1 st1
    | .ok v st1 =>
      match execList fuel rest scope st1 with
      | .err e1 st2 => .err e1 st2
      | .ok vs st2 => .ok (v :: vs) st2
  termination_by structural fuel _ _ _ => fuel

end

/-- `execute` of the source: run the program in the global scope. -/
def execute (fuel : Nat) (program : Node) : Res Value :=
  exec fuel program 0 initStore

/-- The error of a result, if any. -/
def Res.errOf {α : Type} : Res α → Option Err
  | .ok _ _ => none
  | .err e _ => some e

/-- The output trace accumulated in a result (what was printed before the
run finished or aborted). -/
def Res.outOf {α : Type} : Res α → List Value
  | .ok _ st => st.out
  | .err _ st => st.out

/-- The full pipeline on source text: tokenize, parse, execute.  A lexing
or parsing failure aborts the run with that error and no output. -/
def run (fuel : Nat) (src : String) : Res Value :=
  match tokenize fuel src with
  | .error e => .err e initStore
  | .ok ts =>
    match parse fuel ts with
    | .error e => .err e initStore
    | .ok ast => execute fuel ast

/-! ## Auxiliary notions used only to state theorems -/

/-- The association list that the parameter-binding loop writes into a
fresh call frame: each formal paired with the corresponding argument
value, `noValue` once the argument values run out. -/
def paramObjects : List String → List Value → List (String × Value)
  | [], _ => []
  | p :: ps, vs => (p, vs.headD .noValue) :: paramObjects ps vs.tail

/-- The parent chain of a scope, receiver first, as walked by
`lookupScope` (cut off by fuel like the walk itself). -/
def chain (st : Store) : Nat → Nat → List Nat
  | 0, _ => []
  | fuel + 1, sid =>
    match st.frames[sid]? with
    | none => []
    | some f =>
      sid ::
        (match f.parent with
         | none => []
         | some p => chain st fuel p)

/-- Whether a frame of the store visibly binds a name, in the sense of
`lookupScope` (bound to something other than `noValue`). -/
def frameBinds (st : Store) (name : String) (fid : Nat) : Bool :=
  match st.frames[fid]? with
  | none => false
  | some f => isDefined (objGetD f.objects name)

/-- Error shapes the parser is allowed to produce: the
expected-versus-actual token `TSError`, the unexpected
statement/expression token `TSError`s, the host-level error from reading
a token past the end of the sequence, and fuel exhaustion (model
artifact).  In particular no runtime error and no return signal. -/
def PErrOk : Err → Prop
  | .ts (.expectedToken _ _) => True
  | .ts (.unknownStatement _) => True
  | .ts (.unknownToken _) => True
  | .host => True
  | .fuel => True
  | _ => False

/-- A parser outcome is a success or one of the `PErrOk` failures. -/
def PRes {α : Type} : Except Err α → Prop
  | .ok _ => True
  | .error e => PErrOk e

/-! ## Helper lemmas about the object-map and store primitives -/

theorem objGet_append_none {a : List (String × Value)} (b : List (String × Value))
    {k : String} (h : objGet a k = none) : objGet (a ++ b) k = objGet b k := by
  induction a with
  | nil => rfl
  | cons hd tl ih =>
    obtain ⟨k', v⟩ := hd
    by_cases hk : k' = k
    · simp [objGet, hk] at h
    · simp only [objGet, hk, if_false, List.cons_append] at h ⊢
      exact ih h

theorem objGet_append_some {a : List (String × Value)} (b : List (String × Value))
    {k : String} {v : Value} (h : objGet a k = some v) : objGet (a ++ b) k = some v := by
  induction a with
  | nil => simp [objGet] at h
  | cons hd tl ih =>
    obtain ⟨k', w⟩ := hd
    by_cases hk : k' = k
    · simpa only [objGet, hk, if_true, List.cons_append] using h
    · simp only [objGet, hk, if_false, List.cons_append] at h ⊢
      exact ih h

theorem objSet_of_absent {obj : List (String × Value)} {k : String}
    (v : Value) (h : objGet obj k = none) : objSet obj k v = obj ++ [(k, v)] := by
  induction obj with
  | nil => rfl
  | cons hd tl ih =>
    obtain ⟨k', w⟩ := hd
    by_cases hk : k' = k
    · simp [objGet, hk] at h
    · simp only [objGet, hk, if_false] at h
      simp [objSet, hk, ih h]

theorem objSet_keys_of_present {obj : List (String × Value)} {k : String} {w : Value}
    (v : Value) (h : objGet obj k = some w) :
    (objSet obj k v).map Prod.fst = obj.map Prod.fst := by
  induction obj with
  | nil => simp [objGet] at h
  | cons hd tl ih =>
    obtain ⟨k', w'⟩ := hd
    by_cases hk : k' = k
    · simp [objSet, hk]
    · simp only [objGet, hk, if_false] at h
      simp [objSet, hk, ih h]

theorem list_set_self {α : Type} : ∀ (l : List α) (n : Nat) (a : α),
    l[n]? = some a → l.set n a = l
  | [], n, a => by simp
  | x :: xs, 0, a => by
    intro h
    simp only [List.getElem?_cons_zero, Option.some.injEq] at h
    simp [h]
  | x :: xs, n + 1, a => by
    intro h
    simp only [List.getElem?_cons_succ] at h
    simp [List.set, list_set_self xs n a h]

/-! ## Claim theorems -/

/-- C2 (code bug, failing input): in
`def f = fn () => { }; def g = fn () => { return f(); }; call g();`
the Return inside `g` carries the `noValue` result of `f()`; the catch at
the call boundary of `g` tests `err.value != undefined`, which fails for
that value, so the control-transfer signal is rethrown past the boundary
and escapes the whole run as an uncaught error — contradicting the claim
that the signal is always absorbed at the nearest enclosing function-call
boundary and never observable as an error. -/
theorem c2_return_signal_escapes :
    (run 100 "def f = fn () => { }; def g = fn () => { return f(); }; call g();").errOf
      = some (Err.funcRet Value.noValue) := rfl

/-- C8: a Block statement runs its body in a fresh child frame of the
current scope (parent = the current scope, own mapping initially empty),
executing the statements in order there; consequently in
`def x = 1; { def x = 2; } print x;` the inner `def x` lands in the block
frame and the program prints `1` with no error, the outer binding
untouched. -/
theorem c8_block_fresh_child_scope :
    (∀ (fuel : Nat) (body : List Node) (scope : Nat) (st : Store),
      exec (fuel + 1) (Node.blockStmt body) scope st
        = execSeq fuel body st.frames.length (st.createFrame scope) ∧
      (st.createFrame scope).frames[st.frames.length]? = some ⟨some scope, []⟩) ∧
    (run 100 "def x = 1; { def x = 2; } print x;").outOf = [Value.num 1] ∧
    (run 100 "def x = 1; { def x = 2; } print x;").errOf = none := by
  refine ⟨fun fuel body scope st => ⟨rfl, ?_⟩, rfl, rfl⟩
  simp [Store.createFrame, List.getElem?_concat_length]

/-- C9: `print 1 + 2 * (3 + 4);` lexes to the expected token sequence,
parses as `1 + (2 * (3 + 4))` (multiplication binds tighter than
addition, the parenthesized subexpression grouped innermost), and
evaluating prints exactly 15. -/
theorem c9_precedence_prints_fifteen :
    tokenize 100 "print 1 + 2 * (3 + 4);" = .ok
      [Token.symbol .Print, Token.intLiteral "1", Token.symbol .Plus,
       Token.intLiteral "2", Token.symbol .Mul, Token.symbol .LParen,
       Token.intLiteral "3", Token.symbol .Plus, Token.intLiteral "4",
       Token.symbol .RParen, Token.symbol .Semi] ∧
    parse 100
      [Token.symbol .Print, Token.intLiteral "1", Token.symbol .Plus,
       Token.intLiteral "2", Token.symbol .Mul, Token.symbol .LParen,
       Token.intLiteral "3", Token.symbol .Plus, Token.intLiteral "4",
       Token.symbol .RParen, Token.symbol .Semi] = .ok
      (Node.program [Node.printStmt
        (Node.binaryExpr (Node.intLiteral 1) "+"
          (Node.binaryExpr (Node.intLiteral 2) "*"
            (Node.binaryExpr (Node.intLiteral 3) "+" (Node.intLiteral 4))))]) ∧
    (run 200 "print 1 + 2 * (3 + 4);").outOf = [Value.num 15] ∧
    (run 200 "print 1 + 2 * (3 + 4);").errOf = none :=
  ⟨rfl, rfl, rfl, rfl⟩

/-- C1 (counterexample): evaluating `call 1 ();` — a call whose callee is
the non-function value 1 — fails with the host-level error (reading
`args.length` of `undefined`), NOT with any `TSError`: `Err.host` is a
constructor distinct from `Err.ts`, and the exhaustive `TsMsg` type shows
the code has no NotCallable runtime error anywhere.  This contradicts the
claim that such a call "fails with a NotCallable runtime error (rather
than proceeding or failing with a host-level error)". -/
theorem c1_counterexample_host_not_tserror :
    (run 50 "call 1 ();").errOf = some Err.host := rfl

/-- C3 (counterexample): in `def p = fn (a) => { print a; }; call p ();`
the missing argument stores `noValue` under `a` in the call frame, but
such a binding is invisible to `lookupScope`, so reading `a` inside the
body fails with the UndefinedName error — the parameter is NOT resolvable,
contradicting the claim. -/
theorem c3_counterexample_param_not_resolvable :
    (run 100 "def p = fn (a) => { print a; }; call p ();").errOf
      = some (Err.ts (TsMsg.undefinedName "a")) := rfl

/-- C4 (counterexample): a name bound in the frame's own mapping — but to
`noValue` — does NOT trigger the DuplicateDefinition error: `define`
tests `objects[name] != undefined`, which a `noValue` binding fails, so
the redefinition succeeds, contradicting the claim's
"regardless of what value n is bound to, including NoValue".  (At the
language level: `def f = fn () => { }; def x = f(); def x = 2;` runs
without error.) -/
theorem c4_counterexample_noValue_overwritten :
    objGet [("x", Value.noValue)] "x" = some Value.noValue ∧
    (Scope.define ⟨[⟨none, [("x", Value.noValue)]⟩], []⟩ 0 "x" (Value.num 2)).errOf
      = none :=
  ⟨rfl, rfl⟩

/-- C5 (counterexample): with the receiver's own mapping binding `x` to
`noValue`, `set` reports UndefinedName even though `x` IS bound in the
chain — `lookupScope` skips a `noValue` binding — contradicting the
claim's "fails ... exactly when no scope in the chain binds n". -/
theorem c5_counterexample_noValue_binding_skipped :
    objGet [("x", Value.noValue)] "x" = some Value.noValue ∧
    (Scope.set ⟨[⟨none, [("x", Value.noValue)]⟩], []⟩ 0 "x" (Value.num 5)).errOf
      = some (Err.ts (TsMsg.undefinedName "x")) :=
  ⟨rfl, rfl⟩

theorem lookupScope_eq_find (st : Store) : ∀ (fuel sid : Nat) (name : String),
    lookupScope st fuel sid name = (chain st fuel sid).find? (frameBinds st name) := by
  intro fuel
  induction fuel with
  | zero => intro sid name; rfl
  | succ n ih =>
    intro sid name
    simp only [lookupScope, chain]
    cases hf : st.frames[sid]? with
    | none => rfl
    | some f =>
      cases hd : isDefined (objGetD f.objects name) with
      | true => simp [List.find?, frameBinds, hf, hd]
      | false =>
        cases hp : f.parent with
        | none => simp [List.find?, frameBinds, hf, hd, hp]
        | some p => simp [List.find?, frameBinds, hf, hd, hp, ih]

theorem lookupScope_some (st : Store) : ∀ (fuel sid : Nat) {name : String} {fid : Nat},
    lookupScope st fuel sid name = some fid →
    ∃ f, st.frames[fid]? = some f ∧ isDefined (objGetD f.objects name) = true := by
  intro fuel
  induction fuel with
  | zero => intro sid name fid h; exact absurd h (by simp [lookupScope])
  | succ n ih =>
    intro sid name fid h
    cases hf : st.frames[sid]? with
    | none => simp [lookupScope, hf] at h
    | some f =>
      simp only [lookupScope, hf] at h
      cases hd : isDefined (objGetD f.objects name) with
      | true =>
        simp only [hd, if_true] at h
        obtain rfl : sid = fid := Option.some.inj h
        exact ⟨f, hf, hd⟩
      | false =>
        simp only [hd, Bool.false_eq_true, if_false] at h
        cases hp : f.parent with
        | none => simp [hp] at h
        | some p =>
          rw [hp] at h
          exact ih p h

theorem isDefined_objGetD_some {obj : List (String × Value)} {name : String}
    (h : isDefined (objGetD obj name) = true) : ∃ w, objGet obj name = some w := by
  cases hg : objGet obj name with
  | none => rw [objGetD, hg] at h; exact absurd h (by simp [isDefined])
  | some w => exact ⟨w, rfl⟩

/-- C4 (amended): `define(n, v)` on a scope fails with the
DuplicateDefinition error if and only if `n` is bound in the receiver
frame's own mapping TO A VALUE OTHER THAN NoValue (a `noValue` binding is
treated as absent and silently overwritten); bindings in ancestor frames
are never consulted (the condition mentions only the receiver frame);
otherwise the pair is written into the receiver frame's own mapping. -/
theorem c4_amended_define_ignores_noValue (st : Store) (sid : Nat) (name : String)
    (v : Value) (f : Frame) (h : st.frames[sid]? = some f) :
    (Scope.define st sid name v = .err (.ts (.alreadyDefined name)) st
       ↔ isDefined (objGetD f.objects name) = true) ∧
    (isDefined (objGetD f.objects name) = false →
      Scope.define st sid name v
        = .ok () { st with
            frames := st.frames.set sid { f with objects := objSet f.objects name v } }) := by
  cases hd : isDefined (objGetD f.objects name) <;> simp [Scope.define, h, hd]

theorem c4_amended_witness :
    Scope.define initStore 0 "x" (Value.num 1)
      = .ok () ⟨[⟨none, [("x", Value.num 1)]⟩], []⟩ :=
  (c4_amended_define_ignores_noValue initStore 0 "x" (Value.num 1) ⟨none, []⟩ rfl).2 rfl

/-- C5 (amended): `set(n, v)` walks from the receiver up the parent chain
to the NEAREST scope binding `n` to a value other than NoValue (the walk
is exactly a first-match search along the chain with a `noValue` binding
skipped like an absent one), mutates that binding in place — the frame
already owned an entry for `n` and its key set is unchanged, so no new
binding is created — and fails with the UndefinedName error exactly when
the walk finds no such scope.  The claim's example still holds: in
`def x = 1; { let x = 2; } print x;` the `let` inside the block mutates
the outer binding through the chain and the program prints 2. -/
theorem c5_amended_set_mutates_nearest_visible_binding :
    (∀ (st : Store) (fuel sid : Nat) (name : String),
       lookupScope st fuel sid name = (chain st fuel sid).find? (frameBinds st name)) ∧
    (∀ (st : Store) (sid : Nat) (name : String) (v : Value),
       Scope.set st sid name v = .err (.ts (.undefinedName name)) st
         ↔ lookupScope st st.frames.length sid name = none) ∧
    (∀ (st : Store) (sid fid : Nat) (name : String) (v : Value) (f : Frame),
       lookupScope st st.frames.length sid name = some fid →
       st.frames[fid]? = some f →
       Scope.set st sid name v
           = .ok () { st with
               frames := st.frames.set fid { f with objects := objSet f.objects name v } } ∧
         ∃ w, objGet f.objects name = some w ∧
           (objSet f.objects name v).map Prod.fst = f.objects.map Prod.fst) ∧
    (run 100 "def x = 1; { let x = 2; } print x;").outOf = [Value.num 2] ∧
    (run 100 "def x = 1; { let x = 2; } print x;").errOf = none := by
  refine ⟨lookupScope_eq_find, fun st sid name v => ?_, fun st sid fid name v f hl hf => ?_, rfl, rfl⟩
  · cases hl : lookupScope st st.frames.length sid name with
    | none => simp [Scope.set, hl]
    | some fid =>
      obtain ⟨f, hf, _⟩ := lookupScope_some st st.frames.length sid hl
      simp [Scope.set, hl, hf]
  · obtain ⟨f', hf', hd'⟩ := lookupScope_some st st.frames.length sid hl
    rw [hf] at hf'
    obtain rfl : f' = f := (Option.some.inj hf').symm
    obtain ⟨w, hw⟩ := isDefined_objGetD_some hd'
    exact ⟨by simp [Scope.set, hl, hf], w, hw, objSet_keys_of_present v hw⟩

theorem c5_amended_witness :
    Scope.set ⟨[⟨none, [("x", Value.num 1)]⟩, ⟨some 0, []⟩], []⟩ 1 "x" (Value.num 2)
      = .ok () ⟨[⟨none, [("x", Value.num 2)]⟩, ⟨some 0, []⟩], []⟩ ∧
    ∃ w, objGet [("x", Value.num 1)] "x" = some w ∧
      (objSet [("x", Value.num 1)] "x" (Value.num 2)).map Prod.fst
        = [("x", Value.num 1)].map Prod.fst := by
  have h := c5_amended_set_mutates_nearest_visible_binding.2.2.1
    ⟨[⟨none, [("x", Value.num 1)]⟩, ⟨some 0, []⟩], []⟩ 1 0 "x" (Value.num 2)
    ⟨none, [("x", Value.num 1)]⟩ rfl rfl
  exact ⟨h.1, h.2⟩

/-- C1 (amended): the code performs NO callable check on the evaluated
callee.  When the callee evaluates to `undefined` (noValue), reading
`func.args` throws the host-level TypeError at once (before the
arguments are evaluated); when it evaluates to a number or boolean,
`func.args` reads `undefined`, the arguments are still evaluated and the
call scope created, and then `args.length` throws the host-level
TypeError.  In no case is a NotCallable runtime error produced — no such
error exists in the code. -/
theorem c1_amended_no_callable_check (fuel : Nat) (funcE : Node) (argEs : List Node)
    (scope : Nat) (st : Store) :
    (∀ st1 : Store, exec fuel funcE scope st = .ok .noValue st1 →
       exec (fuel + 1) (.funcCallExpr funcE argEs) scope st = .err .host st1) ∧
    (∀ (q : ℤ) (st1 : Store) (vals : List Value) (st2 : Store),
       exec fuel funcE scope st = .ok (.num q) st1 →
       execList fuel argEs scope st1 = .ok vals st2 →
       exec (fuel + 1) (.funcCallExpr funcE argEs) scope st
         = .err .host (st2.createFrame scope)) ∧
    (∀ (b : Bool) (st1 : Store) (vals : List Value) (st2 : Store),
       exec fuel funcE scope st = .ok (.bool b) st1 →
       execList fuel argEs scope st1 = .ok vals st2 →
       exec (fuel + 1) (.funcCallExpr funcE argEs) scope st
         = .err .host (st2.createFrame scope)) := by
  refine ⟨fun st1 h1 => ?_, fun q st1 vals st2 h1 h2 => ?_, fun b st1 vals st2 h1 h2 => ?_⟩
  · simp [exec, h1]
  · simp [exec, h1, h2]
  · simp [exec, h1, h2]

theorem c1_amended_witness :
    exec 2 (.funcCallExpr (.intLiteral 1) []) 0 initStore
      = .err .host (initStore.createFrame 0) :=
  (c1_amended_no_callable_check 1 (.intLiteral 1) [] 0 initStore).2.1
    1 initStore [] initStore rfl rfl

theorem bindParams_fresh : ∀ (ps : List String) (vs : List Value) (fid : Nat) (st : Store)
    (par : Option Nat) (obj : List (String × Value)),
    st.frames[fid]? = some ⟨par, obj⟩ → ps.Nodup →
    (∀ p ∈ ps, objGet obj p = none) →
    bindParams fid ps vs st
      = .ok () { st with frames := st.frames.set fid ⟨par, obj ++ paramObjects ps vs⟩ } := by
  intro ps
  induction ps with
  | nil =>
    intro vs fid st par obj h _ _
    simp [bindParams, paramObjects, list_set_self st.frames fid ⟨par, obj⟩ h]
  | cons p ps' ih =>
    intro vs fid st par obj h hnd habs
    have hnone : objGet obj p = none := habs p (List.mem_cons_self p ps')
    have hlt : fid < st.frames.length := by
      by_contra hge
      rw [List.getElem?_eq_none (Nat.le_of_not_lt hge)] at h
      exact Option.noConfusion h
    have hdef : Scope.define st fid p (vs.headD .noValue)
        = .ok () { st with
            frames := st.frames.set fid ⟨par, obj ++ [(p, vs.headD .noValue)]⟩ } := by
      simp [Scope.define, h, objGetD, hnone, isDefined, objSet_of_absent _ hnone]
    have hmem : ∀ q ∈ ps', objGet (obj ++ [(p, vs.headD .noValue)]) q = none := by
      intro q hq
      have hqp : ¬(p = q) := fun e => (List.nodup_cons.mp hnd).1 (e ▸ hq)
      rw [objGet_append_none _ (habs q (List.mem_cons_of_mem p hq))]
      simp [objGet, hqp]
    have hframes :
        ({ st with frames := st.frames.set fid ⟨par, obj ++ [(p, vs.headD .noValue)]⟩ } :
            Store).frames[fid]? = some ⟨par, obj ++ [(p, vs.headD .noValue)]⟩ := by
      simp [List.getElem?_set_self hlt]
    calc bindParams fid (p :: ps') vs st
        = bindParams fid ps' vs.tail
            { st with frames := st.frames.set fid ⟨par, obj ++ [(p, vs.headD .noValue)]⟩ } := by
          simp only [bindParams, hdef]
      _ = _ := by
          rw [ih vs.tail fid _ par _ hframes (List.nodup_cons.mp hnd).2 hmem]
          simp [List.set_set, paramObjects]

theorem paramObjects_missing : ∀ (ps : List String) (vs : List Value) (p : String),
    ps.Nodup → p ∈ ps.drop vs.length →
    objGet (paramObjects ps vs) p = some Value.noValue := by
  intro ps
  induction ps with
  | nil => intro vs p _ hp; simp at hp
  | cons q ps' ih =>
    intro vs p hnd hp
    cases vs with
    | nil =>
      simp only [List.length_nil, List.drop_zero] at hp
      by_cases hqp : q = p
      · simp [paramObjects, objGet, hqp]
      · have hp' : p ∈ ps' := by
          cases hp with
          | head => exact absurd rfl hqp
          | tail _ hm => exact hm
        have := ih [] p (List.nodup_cons.mp hnd).2 (by simpa using hp')
        simp only [paramObjects, objGet, hqp, if_false, List.tail_nil]
        exact this
    | cons v vs' =>
      simp only [List.length_cons, List.drop_succ_cons] at hp
      have hp' : p ∈ ps' := List.mem_of_mem_drop hp
      have hqp : ¬(q = p) := fun e => (List.nodup_cons.mp hnd).1 (e ▸ hp')
      simp only [paramObjects, objGet, hqp, if_false, List.tail_cons]
      exact ih vs' p (List.nodup_cons.mp hnd).2 hp

/-- C3 (amended): for every function call, each formal with a
corresponding argument is bound to it in the fresh call frame, and every
formal with no corresponding argument gets the pair
`(name, noValue)` STORED in the frame (first conjunct: the frame's
mapping after binding is exactly `paramObjects`; second conjunct: the
stored value for a missing argument is `noValue`) — but such a binding is
NOT resolvable: lookup treats it like an absent key, so reading the
parameter falls through to the ancestor scopes and fails with the
UndefinedName error when none of them visibly binds it (third conjunct,
for the frame-plus-global-root case).  If the body completes normally
without executing a Return, the call's result is NoValue (fourth
conjunct). -/
theorem c3_amended_missing_args_stored_but_invisible :
    (∀ (ps : List String) (vs : List Value) (fid : Nat) (st : Store) (par : Option Nat),
       st.frames[fid]? = some ⟨par, []⟩ → ps.Nodup →
       bindParams fid ps vs st
         = .ok () { st with frames := st.frames.set fid ⟨par, paramObjects ps vs⟩ }) ∧
    (∀ (ps : List String) (vs : List Value) (p : String),
       ps.Nodup → p ∈ ps.drop vs.length →
       objGet (paramObjects ps vs) p = some Value.noValue) ∧
    (∀ (obj : List (String × Value)) (name : String) (st : Store),
       st.frames = [⟨none, obj⟩] → objGet obj name = some Value.noValue →
       Scope.get st 0 name = .err (.ts (.undefinedName name)) st) ∧
    (∀ (fuel : Nat) (funcE : Node) (argEs : List Node) (scope : Nat)
       (st st1 st2 st3 st4 : Store) (ps : List String) (b : Node) (vals : List Value)
       (u : Unit) (w : Value),
       exec fuel funcE scope st = .ok (.fn ps b) st1 →
       execList fuel argEs scope st1 = .ok vals st2 →
       bindParams st2.frames.length ps vals (st2.createFrame scope) = .ok u st3 →
       exec fuel b st2.frames.length st3 = .ok w st4 →
       exec (fuel + 1) (.funcCallExpr funcE argEs) scope st = .ok .noValue st4) := by
  refine ⟨fun ps vs fid st par h hnd => ?_, paramObjects_missing,
    fun obj name st hst hg => ?_, fun fuel funcE argEs scope st st1 st2 st3 st4 ps b
      vals u w h1 h2 h3 h4 => ?_⟩
  · simpa using bindParams_fresh ps vs fid st par [] h hnd (fun p _ => rfl)
  · simp [Scope.get, hst, lookupScope, objGetD, hg, isDefined]
  · simp [exec, h1, h2, h3, h4]

theorem c3_amended_witness :
    bindParams 0 ["a"] [] initStore
      = .ok () { initStore with
          frames := initStore.frames.set 0 ⟨none, paramObjects ["a"] []⟩ } ∧
    objGet (paramObjects ["a"] []) "a" = some Value.noValue ∧
    Scope.get ⟨[⟨none, [("a", Value.noValue)]⟩], []⟩ 0 "a"
      = .err (.ts (.undefinedName "a")) ⟨[⟨none, [("a", Value.noValue)]⟩], []⟩ ∧
    exec 3 (.funcCallExpr (.fnLiteral [] (.blockStmt [])) []) 0 initStore
      = .ok .noValue ((initStore.createFrame 0).createFrame 1) :=
  ⟨c3_amended_missing_args_stored_but_invisible.1 ["a"] [] 0 initStore none rfl
      (by simp),
    c3_amended_missing_args_stored_but_invisible.2.1 ["a"] [] "a" (by simp) (by simp),
    c3_amended_missing_args_stored_but_invisible.2.2.1 [("a", Value.noValue)] "a"
      ⟨[⟨none, [("a", Value.noValue)]⟩], []⟩ rfl rfl,
    c3_amended_missing_args_stored_but_invisible.2.2.2 2 (.fnLiteral [] (.blockStmt []))
      [] 0 initStore initStore initStore (initStore.createFrame 0)
      ((initStore.createFrame 0).createFrame 1) [] (.blockStmt []) [] () .noValue
      rfl rfl rfl rfl⟩

/-- C6: for every function call whose callee evaluates to a function
value, the fresh call frame's parent is the scope ACTIVE AT THE CALL SITE
(the `scope` the call expression is being evaluated in — the function
value carries no defining scope at all, so free variables in the body
resolve relative to the call site), and every argument expression is
evaluated left to right via `execList` in that same caller scope before
the body runs in the fresh frame.  Concretely, in
`def f = fn () => { return y; }; def g = fn () => { def y = 42; return f(); }; print g();`
the free `y` of `f` resolves to the `y` defined inside `g`, the caller:
the program prints 42. -/
theorem c6_call_scope_parent_is_call_site :
    (∀ (fuel : Nat) (funcE : Node) (argEs : List Node) (scope : Nat)
       (st st1 st2 : Store) (ps : List String) (b : Node) (vals : List Value),
       exec fuel funcE scope st = .ok (.fn ps b) st1 →
       execList fuel argEs scope st1 = .ok vals st2 →
       (st2.createFrame scope).frames[st2.frames.length]? = some ⟨some scope, []⟩ ∧
       exec (fuel + 1) (.funcCallExpr funcE argEs) scope st
         = (match bindParams st2.frames.length ps vals (st2.createFrame scope) with
            | .err e st3 => .err e st3
            | .ok _ st3 =>
              match exec fuel b st2.frames.length st3 with
              | .ok _ st4 => .ok .noValue st4
              | .err (.funcRet v) st4 =>
                if isDefined v then .ok v st4 else .err (.funcRet v) st4
              | .err e st4 => .err e st4)) ∧
    (run 200 "def f = fn () => { return y; }; def g = fn () => { def y = 42; return f(); }; print g();").outOf
      = [Value.num 42] ∧
    (run 200 "def f = fn () => { return y; }; def g = fn () => { def y = 42; return f(); }; print g();").errOf
      = none := by
  refine ⟨fun fuel funcE argEs scope st st1 st2 ps b vals h1 h2 =>
    ⟨by simp [Store.createFrame, List.getElem?_concat_length], ?_⟩, rfl, rfl⟩
  simp [exec, h1, h2]

theorem c6_witness :
    (initStore.createFrame 0).frames[initStore.frames.length]? = some ⟨some 0, []⟩ ∧
    exec 3 (.funcCallExpr (.fnLiteral [] (.blockStmt [])) []) 0 initStore
      = (match bindParams initStore.frames.length [] [] (initStore.createFrame 0) with
         | .err e st3 => .err e st3
         | .ok _ st3 =>
           match exec 2 (Node.blockStmt []) initStore.frames.length st3 with
           | .ok _ st4 => .ok .noValue st4
           | .err (.funcRet v) st4 =>
             if isDefined v then .ok v st4 else .err (.funcRet v) st4
           | .err e st4 => .err e st4) :=
  c6_call_scope_parent_is_call_site.1 2 (.fnLiteral [] (.blockStmt [])) [] 0
    initStore initStore initStore [] (.blockStmt []) [] rfl rfl

theorem execList_length : ∀ (fuel : Nat) (argEs : List Node) (scope : Nat) (st : Store)
    (vals : List Value) (st2 : Store),
    execList fuel argEs scope st = .ok vals st2 → vals.length = argEs.length := by
  intro fuel
  induction fuel with
  | zero => intro argEs scope st vals st2 h; exact absurd h (by simp [execList])
  | succ n ih =>
    intro argEs scope st vals st2 h
    cases argEs with
    | nil =>
      simp only [execList] at h
      cases h
      rfl
    | cons a rest =>
      simp only [execList] at h
      cases h1 : exec n a scope st with
      | err e st1 => simp only [h1] at h; exact Res.noConfusion h
      | ok v st1 =>
        simp only [h1] at h
        cases h2 : execList n rest scope st1 with
        | err e st2' => simp only [h2] at h; exact Res.noConfusion h
        | ok vs st2' =>
          simp only [h2] at h
          cases h
          simp [ih rest scope st1 vs st2 h2]

theorem bindParams_take : ∀ (ps : List String) (fid : Nat) (vs : List Value) (st : Store),
    ps.length ≤ vs.length →
    bindParams fid ps vs st = bindParams fid ps (vs.take ps.length) st := by
  intro ps
  induction ps with
  | nil => intro fid vs st _; rfl
  | cons p ps' ih =>
    intro fid vs st hle
    cases vs with
    | nil => simp at hle
    | cons v vs' =>
      simp only [bindParams, List.length_cons, List.take_succ_cons, List.headD_cons,
        List.tail_cons]
      cases hd : Scope.define st fid p v with
      | err e st' => simp only [hd]
      | ok u st' =>
        simp only [hd]
        exact ih fid vs' st' (by simp only [List.length_cons] at hle; omega)

set_option maxHeartbeats 1600000 in
/-- C10: for a call with more arguments than the callee has formal
parameters, every argument expression is still evaluated (a successful
argument evaluation produces exactly one value per argument expression,
left to right by the structure of `execList`), but the binding loop runs
only over the formals, so the extra values are never read (binding with
the full value list equals binding with the list truncated to the number
of formals) and their values are silently discarded with no error from
the arity mismatch.  Concretely,
`def ga = fn () => { print 1; return 10; }; def gb = fn () => { print 2; return 20; }; def p = fn (a) => { print a; }; call p(ga(), gb());`
prints 1 then 2 (both extra-position arguments evaluated for their side
effects, left to right) and then 10 (the first argument's value bound to
`a`), completing without error — the value 20 is discarded. -/
theorem c10_extra_args_evaluated_then_discarded :
    (∀ (fuel : Nat) (argEs : List Node) (scope : Nat) (st : Store)
       (vals : List Value) (st2 : Store),
       execList fuel argEs scope st = .ok vals st2 → vals.length = argEs.length) ∧
    (∀ (fid : Nat) (ps : List String) (vs : List Value) (st : Store),
       ps.length ≤ vs.length →
       bindParams fid ps vs st = bindParams fid ps (vs.take ps.length) st) ∧
    (run 300 "def ga = fn () => { print 1; return 10; }; def gb = fn () => { print 2; return 20; }; def p = fn (a) => { print a; }; call p(ga(), gb());").outOf
      = [Value.num 1, Value.num 2, Value.num 10] ∧
    (run 300 "def ga = fn () => { print 1; return 10; }; def gb = fn () => { print 2; return 20; }; def p = fn (a) => { print a; }; call p(ga(), gb());").errOf
      = none :=
  ⟨execList_length, fun fid ps vs st h => bindParams_take ps fid vs st h, rfl, rfl⟩

theorem c10_witness :
    ([Value.num 7].length = [Node.intLiteral 7].length) ∧
    bindParams 0 ["a"] [Value.num 1, Value.num 2] initStore
      = bindParams 0 ["a"] ([Value.num 1, Value.num 2].take 1) initStore :=
  ⟨c10_extra_args_evaluated_then_discarded.1 2 [Node.intLiteral 7] 0 initStore
      [Value.num 7] initStore rfl,
    c10_extra_args_evaluated_then_discarded.2.1 0 ["a"] [Value.num 1, Value.num 2]
      initStore (by simp)⟩

/-- C7 (counterexample): on the truncated token sequence consisting of
the single keyword `def`, the parser needs the identifier token past the
end of the sequence; `peek()` yields `undefined` and reading `.type`
throws the host-level TypeError — NOT a ParseError (`TSError`) of any
shape, contradicting the claim that a truncated input still fails with a
ParseError (`Err.host` is a constructor distinct from every `Err.ts`
ParseError). -/
theorem c7_counterexample_truncated_input_host_error :
    parse 50 [Token.symbol .Def] = .error Err.host := rfl

theorem PRes_bind {α β : Type} {x : Except Err α} {f : α → Except Err β}
    (hx : PRes x) (hf : ∀ a, PRes (f a)) : PRes (x >>= f) := by
  cases x with
  | error e => exact hx
  | ok a => exact hf a

theorem pMatch_PRes (ts : List Token) (i : Nat) (ty : TokenType) :
    PRes (pMatch ts i ty) := by
  unfold pMatch
  cases ts[i]? with
  | none => trivial
  | some token => by_cases h : token.type = ty <;> simp [h, PRes, PErrOk]

theorem parser_PRes (ts : List Token) : ∀ fuel : Nat,
    (∀ i, PRes (pProgram ts fuel i)) ∧
    (∀ i, PRes (pStatement ts fuel i)) ∧
    (∀ i, PRes (pDefStatement ts fuel i)) ∧
    (∀ i, PRes (pLetStatement ts fuel i)) ∧
    (∀ i, PRes (pPrintStatement ts fuel i)) ∧
    (∀ i, PRes (pBlockStatement ts fuel i)) ∧
    (∀ i, PRes (pBlockLoop ts fuel i)) ∧
    (∀ i, PRes (pIfStatement ts fuel i)) ∧
    (∀ i, PRes (pWhileStatement ts fuel i)) ∧
    (∀ i, PRes (pCallStatement ts fuel i)) ∧
    (∀ i, PRes (pReturnStatement ts fuel i)) ∧
    (∀ i, PRes (pExpression ts fuel i)) ∧
    (∀ i, PRes (pRelational ts fuel i)) ∧
    (∀ e i, PRes (pRelLoop ts fuel e i)) ∧
    (∀ i, PRes (pAdditive ts fuel i)) ∧
    (∀ e i, PRes (pAddLoop ts fuel e i)) ∧
    (∀ i, PRes (pMultiplicative ts fuel i)) ∧
    (∀ e i, PRes (pMultLoop ts fuel e i)) ∧
    (∀ i, PRes (pPostfix ts fuel i)) ∧
    (∀ i, PRes (pArgList ts fuel i)) ∧
    (∀ i, PRes (pArgLoop ts fuel i)) ∧
    (∀ i, PRes (pPrimary ts fuel i)) ∧
    (∀ i, PRes (pFnLiteral ts fuel i)) ∧
    (∀ i, PRes (pFnParams ts fuel i)) := by
  intro fuel
  induction fuel with
  | zero =>
    exact ⟨fun _ => trivial, fun _ => trivial, fun _ => trivial, fun _ => trivial,
      fun _ => trivial, fun _ => trivial, fun _ => trivial, fun _ => trivial,
      fun _ => trivial, fun _ => trivial, fun _ => trivial, fun _ => trivial,
      fun _ => trivial, fun _ _ => trivial, fun _ => trivial, fun _ _ => trivial,
      fun _ => trivial, fun _ _ => trivial, fun _ => trivial, fun _ => trivial,
      fun _ => trivial, fun _ => trivial, fun _ => trivial, fun _ => trivial⟩
  | succ n ih =>
    obtain ⟨ihProgram, ihStatement, _ihDef, _ihLet, _ihPrint, ihBlock, ihBlockLoop,
      _ihIf, _ihWhile, _ihCall, _ihReturn, ihExpression, ihRelational, ihRelLoop,
      ihAdditive, ihAddLoop, ihMultiplicative, ihMultLoop, ihPostfix, ihArgList,
      ihArgLoop, ihPrimary, ihFnLiteral, ihFnParams⟩ := ih
    have hProgram : ∀ i, PRes (pProgram ts (n + 1) i) := by
      intro i
      simp only [pProgram]
      split
      · refine PRes_bind (ihStatement i) ?_
        rintro ⟨stmt, i'⟩
        refine PRes_bind (ihProgram i') ?_
        rintro ⟨rest, i''⟩
        trivial
      · trivial
    have hDef : ∀ i, PRes (pDefStatement ts (n + 1) i) := by
      intro i
      simp only [pDefStatement]
      refine PRes_bind (pMatch_PRes ts i .Def) ?_
      rintro ⟨_, i⟩
      refine PRes_bind (pMatch_PRes ts i .Id) ?_
      rintro ⟨idTok, i⟩
      refine PRes_bind (pMatch_PRes ts i .Assign) ?_
      rintro ⟨_, i⟩
      refine PRes_bind (ihExpression i) ?_
      rintro ⟨expr, i⟩
      refine PRes_bind (pMatch_PRes ts i .Semi) ?_
      rintro ⟨_, i⟩
      trivial
    have hLet : ∀ i, PRes (pLetStatement ts (n + 1) i) := by
      intro i
      simp only [pLetStatement]
      refine PRes_bind (pMatch_PRes ts i .Let) ?_
      rintro ⟨_, i⟩
      refine PRes_bind (pMatch_PRes ts i .Id) ?_
      rintro ⟨idTok, i⟩
      refine PRes_bind (pMatch_PRes ts i .Assign) ?_
      rintro ⟨_, i⟩
      refine PRes_bind (ihExpression i) ?_
      rintro ⟨expr, i⟩
      refine PRes_bind (pMatch_PRes ts i .Semi) ?_
      rintro ⟨_, i⟩
      trivial
    have hPrint : ∀ i, PRes (pPrintStatement ts (n + 1) i) := by
      intro i
      simp only [pPrintStatement]
      refine PRes_bind (pMatch_PRes ts i .Print) ?_
      rintro ⟨_, i⟩
      refine PRes_bind (ihExpression i) ?_
      rintro ⟨expr, i⟩
      refine PRes_bind (pMatch_PRes ts i .Semi) ?_
      rintro ⟨_, i⟩
      trivial
    have hBlock : ∀ i, PRes (pBlockStatement ts (n + 1) i) := by
      intro i
      simp only [pBlockStatement]
      refine PRes_bind (pMatch_PRes ts i .LCurly) ?_
      rintro ⟨_, i⟩
      refine PRes_bind (ihBlockLoop i) ?_
      rintro ⟨stmts, i⟩
      trivial
    have hBlockLoop : ∀ i, PRes (pBlockLoop ts (n + 1) i) := by
      intro i
      simp only [pBlockLoop]
      split
      · trivial
      · split
        · trivial
        · refine PRes_bind (ihStatement i) ?_
          rintro ⟨stmt, i'⟩
          refine PRes_bind (ihBlockLoop i') ?_
          rintro ⟨rest, i''⟩
          trivial
    have hIf : ∀ i, PRes (pIfStatement ts (n + 1) i) := by
      intro i
      simp only [pIfStatement]
      refine PRes_bind (pMatch_PRes ts i .If) ?_
      rintro ⟨_, i⟩
      refine PRes_bind (pMatch_PRes ts i .LParen) ?_
      rintro ⟨_, i⟩
      refine PRes_bind (ihExpression i) ?_
      rintro ⟨condition, i⟩
      refine PRes_bind (pMatch_PRes ts i .RParen) ?_
      rintro ⟨_, i⟩
      refine PRes_bind (ihStatement i) ?_
      rintro ⟨body, i⟩
      split
      · trivial
      · split
        · refine PRes_bind (ihStatement (i + 1)) ?_
          rintro ⟨elseBody, i'⟩
          trivial
        · trivial
    have hWhile : ∀ i, PRes (pWhileStatement ts (n + 1) i) := by
      intro i
      simp only [pWhileStatement]
      refine PRes_bind (pMatch_PRes ts i .While) ?_
      rintro ⟨_, i⟩
      refine PRes_bind (pMatch_PRes ts i .LParen) ?_
      rintro ⟨_, i⟩
      refine PRes_bind (ihExpression i) ?_
      rintro ⟨condition, i⟩
      refine PRes_bind (pMatch_PRes ts i .RParen) ?_
      rintro ⟨_, i⟩
      refine PRes_bind (ihStatement i) ?_
      rintro ⟨body, i⟩
      trivial
    have hCall : ∀ i, PRes (pCallStatement ts (n + 1) i) := by
      intro i
      simp only [pCallStatement]
      refine PRes_bind (pMatch_PRes ts i .Call) ?_
      rintro ⟨_, i⟩
      refine PRes_bind (ihExpression i) ?_
      rintro ⟨expr, i⟩
      refine PRes_bind (pMatch_PRes ts i .Semi) ?_
      rintro ⟨_, i⟩
      trivial
    have hReturn : ∀ i, PRes (pReturnStatement ts (n + 1) i) := by
      intro i
      simp only [pReturnStatement]
      refine PRes_bind (pMatch_PRes ts i .Return) ?_
      rintro ⟨_, i⟩
      refine PRes_bind (ihExpression i) ?_
      rintro ⟨expr, i⟩
      refine PRes_bind (pMatch_PRes ts i .Semi) ?_
      rintro ⟨_, i⟩
      trivial
    have hStatement : ∀ i, PRes (pStatement ts (n + 1) i) := by
      intro i
      simp only [pStatement]
      split
      · trivial
      · split <;>
          first
            | exact _ihDef i
            | exact _ihLet i
            | exact _ihPrint i
            | exact ihBlock i
            | exact _ihIf i
            | exact _ihWhile i
            | exact _ihCall i
            | exact _ihReturn i
            | trivial
    have hExpression : ∀ i, PRes (pExpression ts (n + 1) i) := by
      intro i
      simp only [pExpression]
      exact ihRelational i
    have hRelLoop : ∀ e i, PRes (pRelLoop ts (n + 1) e i) := by
      intro e i
      simp only [pRelLoop]
      split
      · trivial
      · split
        · refine PRes_bind (ihAdditive (i + 1)) ?_
          rintro ⟨right, i'⟩
          exact ihRelLoop _ i'
        · trivial
    have hRelational : ∀ i, PRes (pRelational ts (n + 1) i) := by
      intro i
      simp only [pRelational]
      refine PRes_bind (ihAdditive i) ?_
      rintro ⟨expr, i'⟩
      exact ihRelLoop expr i'
    have hAddLoop : ∀ e i, PRes (pAddLoop ts (n + 1) e i) := by
      intro e i
      simp only [pAddLoop]
      split
      · trivial
      · split
        · refine PRes_bind (ihMultiplicative (i + 1)) ?_
          rintro ⟨right, i'⟩
          exact ihAddLoop _ i'
        · trivial
    have hAdditive : ∀ i, PRes (pAdditive ts (n + 1) i) := by
      intro i
      simp only [pAdditive]
      refine PRes_bind (ihMultiplicative i) ?_
      rintro ⟨expr, i'⟩
      exact ihAddLoop expr i'
    have hMultLoop : ∀ e i, PRes (pMultLoop ts (n + 1) e i) := by
      intro e i
      simp only [pMultLoop]
      split
      · trivial
      · split
        · refine PRes_bind (ihPostfix (i + 1)) ?_
          rintro ⟨right, i'⟩
          exact ihMultLoop _ i'
        · trivial
    have hMultiplicative : ∀ i, PRes (pMultiplicative ts (n + 1) i) := by
      intro i
      simp only [pMultiplicative]
      refine PRes_bind (ihPostfix i) ?_
      rintro ⟨expr, i'⟩
      exact ihMultLoop expr i'
    have hPostfix : ∀ i, PRes (pPostfix ts (n + 1) i) := by
      intro i
      simp only [pPostfix]
      refine PRes_bind (ihPrimary i) ?_
      rintro ⟨expr, i'⟩
      split
      · trivial
      · split
        · refine PRes_bind (ihArgList (i' + 1)) ?_
          rintro ⟨args, i''⟩
          refine PRes_bind (pMatch_PRes ts i'' .RParen) ?_
          rintro ⟨_, i'''⟩
          trivial
        · trivial
    have hArgLoop : ∀ i, PRes (pArgLoop ts (n + 1) i) := by
      intro i
      simp only [pArgLoop]
      split
      · trivial
      · split
        · refine PRes_bind (ihExpression (i + 1)) ?_
          rintro ⟨arg, i'⟩
          refine PRes_bind (ihArgLoop i') ?_
          rintro ⟨rest, i''⟩
          trivial
        · trivial
    have hArgList : ∀ i, PRes (pArgList ts (n + 1) i) := by
      intro i
      simp only [pArgList]
      split
      · trivial
      · split
        · trivial
        · refine PRes_bind (ihExpression i) ?_
          rintro ⟨arg, i'⟩
          refine PRes_bind (ihArgLoop i') ?_
          rintro ⟨rest, i''⟩
          trivial
    have hFnLiteral : ∀ i, PRes (pFnLiteral ts (n + 1) i) := by
      intro i
      simp only [pFnLiteral]
      refine PRes_bind (pMatch_PRes ts i .Fn) ?_
      rintro ⟨_, i⟩
      refine PRes_bind (pMatch_PRes ts i .LParen) ?_
      rintro ⟨_, i⟩
      split
      · trivial
      · split
        · refine PRes_bind (pMatch_PRes ts i .Id) ?_
          rintro ⟨idTok, i'⟩
          refine PRes_bind (ihFnParams i') ?_
          rintro ⟨rest, i''⟩
          refine PRes_bind (pMatch_PRes ts i'' .RParen) ?_
          rintro ⟨_, j⟩
          refine PRes_bind (pMatch_PRes ts j .RightArrow) ?_
          rintro ⟨_, j'⟩
          refine PRes_bind (ihBlock j') ?_
          rintro ⟨body, j''⟩
          trivial
        · refine PRes_bind (pMatch_PRes ts i .RParen) ?_
          rintro ⟨_, j⟩
          refine PRes_bind (pMatch_PRes ts j .RightArrow) ?_
          rintro ⟨_, j'⟩
          refine PRes_bind (ihBlock j') ?_
          rintro ⟨body, j''⟩
          trivial
    have hPrimary : ∀ i, PRes (pPrimary ts (n + 1) i) := by
      intro i
      simp only [pPrimary]
      split
      · trivial
      · split <;>
          first
            | exact ihFnLiteral i
            | (refine PRes_bind (ihExpression (i + 1)) ?_
               rintro ⟨expr, i'⟩
               refine PRes_bind (pMatch_PRes ts i' .RParen) ?_
               rintro ⟨_, i''⟩
               trivial)
            | trivial
    have hFnParams : ∀ i, PRes (pFnParams ts (n + 1) i) := by
      intro i
      simp only [pFnParams]
      split
      · trivial
      · split
        · refine PRes_bind (pMatch_PRes ts (i + 1) .Id) ?_
          rintro ⟨idTok, i'⟩
          refine PRes_bind (ihFnParams i') ?_
          rintro ⟨rest, i''⟩
          trivial
        · trivial
    exact ⟨hProgram, hStatement, hDef, hLet, hPrint, hBlock, hBlockLoop, hIf, hWhile,
      hCall, hReturn, hExpression, hRelational, hRelLoop, hAdditive, hAddLoop,
      hMultiplicative, hMultLoop, hPostfix, hArgList, hArgLoop, hPrimary, hFnLiteral,
      hFnParams⟩

/-- C7 (amended): for every finite token sequence and every fuel bound,
the parser either produces a Program node or fails with a ParseError
(the expected-versus-actual token `TSError`, or the unexpected
statement/expression token `TSError`s) — EXCEPT that when it needs a
token past the end of the sequence (e.g. a truncated input) it fails
with a host-level error instead (reading `.type` of `undefined`).  In
particular it never fails with any runtime error (DuplicateDefinition,
UndefinedName), lexer error, or return signal.  (`Err.fuel` is the
model's fuel artifact, impossible for the terminating source parser.) -/
theorem c7_amended_parser_failure_shapes :
    ∀ (fuel : Nat) (ts : List Token), PRes (parse fuel ts) := by
  intro fuel ts
  have h := (parser_PRes ts fuel).1 0
  cases hp : pProgram ts fuel 0 with
  | error e =>
    rw [hp] at h
    simpa [parse, hp, Except.map] using h
  | ok p => simp [parse, hp, Except.map, PRes]

end Tinyscript
